import Mathlib

/-!
Verification of the ordered-container content model of the Widget Sidebar
application: order-index maintenance (move up / move down / insert below /
append), tag-filtered content assembly, and tag CRUD validation.

The definitions below are shallow embeddings of:
- src/views/areas_window.py   (_shift_order_indices_down, _on_move_up,
  _on_move_down, _on_entity_selected, _filter_content_by_tags)
- src/views/projects_window.py (_filter_content_by_tags)
- src/core/area_manager.py    (add_entity_to_area, add_component_to_area)
- src/core/area_element_tag_manager.py (validate_tag_name, validate_color,
  create_tag, update_tag)
- src/models/area.py          (AreaRelation.__post_init__, validate_entity_type)

The persistent store layer (db_manager) is an external collaborator of this
logic; the repository files defining it are not available, so its narrow
interface (ordered read of a container's rows, single-row order updates,
single-row adds and updates) is modelled from the specification, section 6.
-/

namespace WidgetSidebar

/-- Discriminator for a store content row: a relation row (its entity_type
column is not NULL) or a component row (its component_type column is not
NULL). -/
inductive EntryKind where
  | relation : EntryKind
  | component : EntryKind
deriving DecidableEq, Repr

/-- A content row of one container, as returned by the store: its table id,
its kind discriminator, and its order_index. -/
structure Row where
  id : Nat
  kind : EntryKind
  orderIndex : Nat
deriving DecidableEq, Repr

/-- The store state restricted to one container: the list of its relation and
component rows. -/
structure Store where
  rows : List Row
deriving DecidableEq, Repr

/-- Helper for the stable ascending sort by order_index: insert a row after
every already-placed row with a strictly smaller order_index. -/
def insertSorted (r : Row) : List Row → List Row
  | [] => [r]
  | x :: xs => if x.orderIndex < r.orderIndex then x :: insertSorted r xs else r :: x :: xs

/-- Stable insertion sort of rows by ascending order_index. -/
def sortRows : List Row → List Row
  | [] => []
  | r :: rs => insertSorted r (sortRows rs)

/-- Modelled from the spec: the store call get_area_content_ordered returns
every relation and component row of the container, sorted ascending by
order_index (spec sections 4.1 and 6); db_manager itself is not in the
sources. -/
def get_area_content_ordered (s : Store) : List Row :=
  sortRows s.rows

/-- Row-level effect of a single-row order update: the row of the given kind
and table id gets the new order_index, every other row is unchanged. -/
def updRowFn (k : EntryKind) (tid v : Nat) (r : Row) : Row :=
  if r.kind = k ∧ r.id = tid then { r with orderIndex := v } else r

/-- Modelled from the spec: store call update_relation_order (atomic
single-row write, spec section 6). -/
def update_relation_order (s : Store) (tid v : Nat) : Store :=
  ⟨s.rows.map (updRowFn .relation tid v)⟩

/-- Modelled from the spec: store call update_component_order (atomic
single-row write, spec section 6). -/
def update_component_order (s : Store) (tid v : Nat) : Store :=
  ⟨s.rows.map (updRowFn .component tid v)⟩

/-- Dispatch of an order update on the kind of the item at hand, as
areas_window.py does with its entity_type / component_type checks. -/
def updateItemOrder (s : Store) (item : Row) (v : Nat) : Store :=
  match item.kind with
  | .relation => update_relation_order s item.id v
  | .component => update_component_order s item.id v

/-- AreasWindow._shift_order_indices_down: read the ordered content once and,
for every item whose order_index is at least fromOrder, write order_index + 1
back through the per-kind store call. -/
def shift_order_indices_down (s : Store) (fromOrder : Nat) : Store :=
  (get_area_content_ordered s).foldl
    (fun st item =>
      if fromOrder ≤ item.orderIndex then updateItemOrder st item (item.orderIndex + 1) else st)
    s

/-- Row-level effect of one step of the shift loop: the row is bumped when it
is the item the loop currently updates and that item reached the
threshold. -/
def shiftRowStep (fromOrder : Nat) (r item : Row) : Row :=
  if fromOrder ≤ item.orderIndex then updRowFn item.kind item.id (item.orderIndex + 1) r else r

/-- The row a after a move gave it the order_index of row b. -/
def swapRow (a b : Row) : Row := ⟨a.id, a.kind, b.orderIndex⟩

/-- src/models/area.py: AreaRelation.VALID_ENTITY_TYPES. -/
def VALID_ENTITY_TYPES : List String :=
  ["tag", "process", "list", "table", "category", "item"]

/-- src/models/area.py: validate_entity_type. -/
def validate_entity_type (entityType : String) : Bool :=
  VALID_ENTITY_TYPES.contains entityType

/-- Modelled from the spec: store call add_area_relation appends a fresh
relation row carrying the given order_index (spec section 6); the store
assigns the new id, passed here as newId. -/
def add_area_relation (s : Store) (newId oi : Nat) : Store :=
  ⟨s.rows ++ [⟨newId, .relation, oi⟩]⟩

/-- Modelled from the spec: store call add_area_component appends a fresh
component row carrying the given order_index (spec section 6). -/
def add_area_component (s : Store) (newId oi : Nat) : Store :=
  ⟨s.rows ++ [⟨newId, .component, oi⟩]⟩

/-- The running-maximum fold of area_manager.add_entity_to_area: max_order
starts at -1 and is raised by every row with a larger order_index. -/
def foldMaxOrder (init : Int) (l : List Row) : Int :=
  l.foldl (fun m r => if (r.orderIndex : Int) > m then (r.orderIndex : Int) else m) init

/-- The order_index computed by area_manager.add_entity_to_area when no
position is given: one more than the maximum order_index over the
container's relations and components (max_order starts at -1). -/
def relationAppendOrderIndex (s : Store) : Nat :=
  (foldMaxOrder
      (foldMaxOrder (-1) (s.rows.filter (fun r => r.kind = EntryKind.relation)))
      (s.rows.filter (fun r => r.kind = EntryKind.component)) + 1).toNat

/-- src/core/area_manager.py: add_entity_to_area. Validates the entity type,
fills in the append position when none is given, then adds the relation row.
The store add is assumed to succeed (atomic add, spec section 6). -/
def add_entity_to_area (s : Store) (entityType : String) (newId : Nat)
    (orderIndex : Option Nat) : Bool × Store :=
  if validate_entity_type entityType = false then (false, s)
  else
    let oi := match orderIndex with
      | some k => k
      | none => relationAppendOrderIndex s
    (true, add_area_relation s newId oi)

/-- The order_index computed by area_manager.add_component_to_area when no
position is given: the count of existing relations plus components. -/
def componentAppendOrderIndex (s : Store) : Nat :=
  (s.rows.filter (fun r => r.kind = EntryKind.relation)).length
    + (s.rows.filter (fun r => r.kind = EntryKind.component)).length

/-- src/core/area_manager.py: add_component_to_area. No type validation is
performed; when no position is given the append position is the count of
existing rows. -/
def add_component_to_area (s : Store) (newId : Nat) (orderIndex : Option Nat) : Bool × Store :=
  let oi := match orderIndex with
    | some k => k
    | none => componentAppendOrderIndex s
  (true, add_area_component s newId oi)

/-- The insert-below path of AreasWindow._on_entity_selected: with an anchor
whose order_index is selectedOrder, first shift every item with order_index
at least selectedOrder + 1 up by one, then add the new relation at
selectedOrder + 1 through add_entity_to_area. -/
def on_entity_selected (s : Store) (entityType : String) (newId selectedOrder : Nat) :
    Bool × Store :=
  add_entity_to_area (shift_order_indices_down s (selectedOrder + 1)) entityType newId
    (some (selectedOrder + 1))

/-- The enumerate-and-break search of _on_move_up / _on_move_down: index of
the first content item whose id equals the requested item id. -/
def findIndexById : List Row → Nat → Option Nat
  | [], _ => none
  | r :: rs, itemId =>
    if r.id = itemId then some 0 else (findIndexById rs itemId).map (· + 1)

/-- AreasWindow._on_move_up: locate the item by id in the ordered content; a
no-op when absent or already first; otherwise swap order_index values with
the immediate predecessor (two per-kind store writes, current item first). -/
def on_move_up (s : Store) (itemId : Nat) : Store :=
  match findIndexById (get_area_content_ordered s) itemId with
  | none => s
  | some i =>
    if i = 0 then s
    else
      match (get_area_content_ordered s)[i]?, (get_area_content_ordered s)[i-1]? with
      | some cur, some prev =>
        updateItemOrder (updateItemOrder s cur prev.orderIndex) prev cur.orderIndex
      | _, _ => s

/-- AreasWindow._on_move_down: symmetric to on_move_up; a no-op when absent
or already last; otherwise swap order_index values with the immediate
successor. -/
def on_move_down (s : Store) (itemId : Nat) : Store :=
  match findIndexById (get_area_content_ordered s) itemId with
  | none => s
  | some i =>
    if (get_area_content_ordered s).length - 1 ≤ i then s
    else
      match (get_area_content_ordered s)[i]?, (get_area_content_ordered s)[i+1]? with
      | some cur, some next =>
        updateItemOrder (updateItemOrder s cur next.orderIndex) next cur.orderIndex
      | _, _ => s

/-- Tag-id resolution per item kind, as both _filter_content_by_tags variants
perform through the tag manager; the association index is passed as the two
lookup functions. -/
def itemTagIds (getRelTags getCompTags : Nat → List Nat) (item : Row) : List Nat :=
  match item.kind with
  | .relation => getRelTags item.id
  | .component => getCompTags item.id

/-- The AND / OR predicate shared by both filter variants: with match_all,
every active filter tag must be among the item tags; otherwise at least
one. -/
def tagMatch (activeTagFilters itemTags : List Nat) (matchAll : Bool) : Bool :=
  if matchAll then activeTagFilters.all (fun t => itemTags.contains t)
  else activeTagFilters.any (fun t => itemTags.contains t)

/-- AreasWindow._filter_content_by_tags: empty selection returns the content
unchanged; otherwise relations and components are both kept only when their
resolved tag set satisfies the predicate. -/
def filter_content_by_tags_area (getRelTags getCompTags : Nat → List Nat)
    (activeTagFilters : List Nat) (matchAll : Bool) (content : List Row) : List Row :=
  if activeTagFilters.isEmpty then content
  else content.filter
    (fun item => tagMatch activeTagFilters (itemTagIds getRelTags getCompTags item) matchAll)

/-- ProjectsWindow._filter_content_by_tags: empty selection returns the
content unchanged; non-relation items are appended unconditionally; relations
are kept only when their tag set satisfies the predicate. -/
def filter_content_by_tags_project (getRelTags : Nat → List Nat)
    (activeTagFilters : List Nat) (matchAll : Bool) (content : List Row) : List Row :=
  if activeTagFilters.isEmpty then content
  else content.filter
    (fun item =>
      match item.kind with
      | .component => true
      | .relation => tagMatch activeTagFilters (getRelTags item.id) matchAll)

/-- The Python whitespace class used both by str.strip and by the regex
shorthand for whitespace in the tag-name pattern (Unicode semantics of the
re module on str). -/
def isPySpace (c : Char) : Bool :=
  c = ' ' ∨ c = '\t' ∨ c = '\n' ∨ c = '\r' ∨ c = '\x0b' ∨ c = '\x0c' ∨
  (Char.ofNat 0x1c ≤ c ∧ c ≤ Char.ofNat 0x1f) ∨ c = Char.ofNat 0x85 ∨
  c = Char.ofNat 0xa0 ∨ c = Char.ofNat 0x1680 ∨
  (Char.ofNat 0x2000 ≤ c ∧ c ≤ Char.ofNat 0x200a) ∨ c = Char.ofNat 0x2028 ∨
  c = Char.ofNat 0x2029 ∨ c = Char.ofNat 0x202f ∨ c = Char.ofNat 0x205f ∨
  c = Char.ofNat 0x3000

/-- One character of the tag-name pattern class: ASCII letter, ASCII digit,
whitespace, underscore or hyphen. -/
def isNameChar (c : Char) : Bool :=
  decide ('a' ≤ c ∧ c ≤ 'z') || decide ('A' ≤ c ∧ c ≤ 'Z') ||
  decide ('0' ≤ c ∧ c ≤ '9') || isPySpace c || c = '_' || c = '-'

/-- area_element_tag_manager.validate_tag_name: rejects an empty or
whitespace-only name, a name longer than 50 characters, and a name with a
character outside the letters / digits / whitespace / underscore / hyphen
class; the boolean component of the returned pair. -/
def validate_tag_name (name : String) : Bool :=
  if name.toList.all isPySpace then false
  else if 50 < name.length then false
  else !name.toList.isEmpty && name.toList.all isNameChar

/-- One hex digit of the color pattern. -/
def isHexDigitAF (c : Char) : Bool :=
  decide ('0' ≤ c ∧ c ≤ '9') || decide ('a' ≤ c ∧ c ≤ 'f') ||
  decide ('A' ≤ c ∧ c ≤ 'F')

/-- Six or three hex digits: the body of the color pattern. -/
def hexBody (l : List Char) : Bool :=
  (decide (l.length = 6) || decide (l.length = 3)) && l.all isHexDigitAF

/-- area_element_tag_manager.validate_color: the anchored regex match on the
hash-plus-six-or-three-hex-digits pattern; the end anchor of the re module
also accepts the position just before one trailing newline, so a color with
one final newline after the hex body passes as in the Python code. -/
def validate_color (color : String) : Bool :=
  match color.toList with
  | [] => false
  | c :: rest =>
    if c = '#' then
      hexBody rest || (decide (rest.getLast? = some '\n') && hexBody rest.dropLast)
    else false

/-- src/models/area_element_tag.py: the tag record. -/
structure AreaElementTag where
  id : Nat
  name : String
  color : String
  description : String
deriving DecidableEq, Repr

/-- The two store calls create_tag performs after validation: the add (none
models the duplicate-name exception or any store failure) and the re-read by
id. Modelled from the spec, section 6, as db_manager is not in the
sources. -/
structure TagStoreOps where
  addTag : String → String → String → Option Nat
  getTagById : Nat → Option AreaElementTag

/-- area_element_tag_manager.create_tag: validates name then color, returning
none on either failure before touching the store; then adds and re-reads,
returning none when either store step yields nothing. -/
def create_tag (ops : TagStoreOps) (name color description : String) :
    Option AreaElementTag :=
  if validate_tag_name name = false then none
  else if validate_color color = false then none
  else
    match ops.addTag name color description with
    | none => none
    | some tid =>
      match ops.getTagById tid with
      | none => none
      | some row => some row

/-- src/models/area.py: the AreaRelation record. -/
structure AreaRelation where
  relationId : Nat
  area_id : Nat
  entity_type : String
  entity_id : Nat
  description : String
  order_index : Nat
deriving DecidableEq, Repr

/-- AreaRelation construction with its post-init validation: raising
ValueError on an unrecognized entity_type is modelled as the error case. -/
def mkAreaRelation (relationId area_id : Nat) (entity_type : String)
    (entity_id : Nat) (description : String) (order_index : Nat) :
    Except String AreaRelation :=
  if validate_entity_type entity_type then
    .ok ⟨relationId, area_id, entity_type, entity_id, description, order_index⟩
  else .error "entity_type invalido"

/-- The manager state relevant to update_tag: the lazy tag cache, none while
never loaded (the initial state set in AreaElementTagManager.__init__). -/
structure TagMgrState where
  tagsCache : Option (List (Nat × AreaElementTag))
deriving DecidableEq, Repr

/-- Modelled from the spec: the atomic single-row tag update of the store;
succeeds exactly when a row with the id exists, applying the provided
fields. -/
def db_update_area_element_tag (db : List AreaElementTag) (tid : Nat)
    (name color description : Option String) : Bool × List AreaElementTag :=
  if db.any (fun r => r.id = tid) then
    (true, db.map (fun r =>
      if r.id = tid then
        { r with name := name.getD r.name, color := color.getD r.color,
                 description := description.getD r.description }
      else r))
  else (false, db)

/-- Modelled from the spec: the single-row read by id of the store. -/
def db_get_area_element_tag_by_id (db : List AreaElementTag) (tid : Nat) :
    Option AreaElementTag :=
  db.find? (fun r => r.id = tid)

/-- Deletion of one key from the cache dictionary. -/
def cacheDelete (cache : List (Nat × AreaElementTag)) (tid : Nat) :
    List (Nat × AreaElementTag) :=
  cache.filter (fun p => ¬ (p.1 = tid))

/-- area_element_tag_manager.update_tag: validate the provided fields, then
write through the store; on a successful write the code tests membership of
the id in the cache dictionary, which in the never-loaded state (cache none)
raises a TypeError that the catch-all handler converts to a False return,
after the store write already happened; on a loaded cache the entry is
dropped and the updated row re-cached. -/
def update_tag (db : List AreaElementTag) (st : TagMgrState) (tid : Nat)
    (name color description : Option String) :
    Bool × List AreaElementTag × TagMgrState :=
  if (match name with | some nm => !(validate_tag_name nm) | none => false) then
    (false, db, st)
  else if (match color with | some cl => !(validate_color cl) | none => false) then
    (false, db, st)
  else
    if (db_update_area_element_tag db tid name color description).1 then
      match st.tagsCache with
      | none => (false, (db_update_area_element_tag db tid name color description).2, st)
      | some cache =>
        match db_get_area_element_tag_by_id
            (db_update_area_element_tag db tid name color description).2 tid with
        | some row =>
          (true, (db_update_area_element_tag db tid name color description).2,
            ⟨some ((tid, row) :: cacheDelete cache tid)⟩)
        | none =>
          (true, (db_update_area_element_tag db tid name color description).2,
            ⟨some (cacheDelete cache tid)⟩)
    else (false, (db_update_area_element_tag db tid name color description).2, st)

/-- A concrete store stub used by concrete instances: the add yields id 1,
the read-back finds nothing. -/
def opsStub : TagStoreOps := ⟨fun _ _ _ => some 1, fun _ => none⟩

/-- A concrete one-tag store state used by concrete instances. -/
def dbW : List AreaElementTag := [⟨1, "Old", "#fff", ""⟩]

/-- A concrete three-relation container with order indices 0, 1, 2. -/
def S012 : Store :=
  ⟨[⟨10, .relation, 0⟩, ⟨11, .relation, 1⟩, ⟨12, .relation, 2⟩]⟩

/-- Comparison of rows by order_index, non-strict. -/
def rowLE (a b : Row) : Prop := a.orderIndex ≤ b.orderIndex

/-- Comparison of rows by order_index, strict. -/
def rowLT (a b : Row) : Prop := a.orderIndex < b.orderIndex

instance : IsAntisymm Row rowLT :=
  ⟨fun _ _ h1 h2 => absurd (Nat.lt_trans h1 h2) (Nat.lt_irrefl _)⟩

theorem insertSorted_perm (r : Row) (l : List Row) : List.Perm (insertSorted r l) (r :: l) := by
  induction l with
  | nil => exact List.Perm.refl _
  | cons x xs ih =>
    unfold insertSorted
    split
    · exact (List.Perm.cons x ih).trans (List.Perm.swap r x xs)
    · exact List.Perm.refl _

theorem sortRows_perm (l : List Row) : List.Perm (sortRows l) l := by
  induction l with
  | nil => exact List.Perm.refl _
  | cons x xs ih => exact (insertSorted_perm x (sortRows xs)).trans (List.Perm.cons x ih)

theorem insertSorted_sorted (r : Row) (l : List Row) (h : l.Sorted rowLE) :
    (insertSorted r l).Sorted rowLE := by
  induction l with
  | nil => simp [insertSorted, List.Sorted]
  | cons x xs ih =>
    rcases List.sorted_cons.mp h with ⟨hx, hxs⟩
    unfold insertSorted
    split
    · apply List.sorted_cons.mpr
      refine ⟨?_, ih hxs⟩
      intro y hy
      rcases List.mem_cons.mp ((insertSorted_perm r xs).mem_iff.mp hy) with hy | hy
      · subst hy
        exact le_of_lt (by assumption)
      · exact hx y hy
    · apply List.sorted_cons.mpr
      refine ⟨?_, h⟩
      intro y hy
      rcases List.mem_cons.mp hy with hy | hy
      · subst hy
        unfold rowLE
        omega
      · exact le_trans (show rowLE r x by unfold rowLE; omega) (hx y hy)

theorem sortRows_sorted (l : List Row) : (sortRows l).Sorted rowLE := by
  induction l with
  | nil => simp [sortRows, List.Sorted]
  | cons x xs ih => exact insertSorted_sorted x (sortRows xs) ih

theorem sorted_lt_of_sorted_le_nodup (l : List Row) (h : l.Sorted rowLE)
    (hnd : (l.map (fun r => r.orderIndex)).Nodup) : l.Sorted rowLT := by
  induction l with
  | nil => simp [List.Sorted]
  | cons x xs ih =>
    rcases List.sorted_cons.mp h with ⟨hx, hxs⟩
    rw [List.map_cons, List.nodup_cons] at hnd
    apply List.sorted_cons.mpr
    refine ⟨?_, ih hxs hnd.2⟩
    intro y hy
    have hle := hx y hy
    have hne : x.orderIndex ≠ y.orderIndex := by
      intro he
      exact hnd.1 (he ▸ List.mem_map_of_mem (fun r => r.orderIndex) hy)
    unfold rowLE at hle
    unfold rowLT
    omega

theorem sorted_eq_of_perm (l1 l2 : List Row) (hp : List.Perm l1 l2)
    (h1 : l1.Sorted rowLT) (h2 : l2.Sorted rowLT) : l1 = l2 :=
  List.eq_of_perm_of_sorted hp h1 h2

theorem map_eq_self_of_mem (l : List Row) (g : Row → Row) (h : ∀ r ∈ l, g r = r) :
    l.map g = l := by
  induction l with
  | nil => rfl
  | cons x xs ih =>
    rw [List.map_cons, h x (List.mem_cons_self x xs),
      ih (fun r hr => h r (List.mem_cons_of_mem x hr))]

theorem map_decomp (A B : List Row) (p e : Row) (g : Row → Row)
    (hA : ∀ r ∈ A, g r = r) (hB : ∀ r ∈ B, g r = r) :
    (A ++ p :: e :: B).map g = A ++ g p :: g e :: B := by
  rw [List.map_append, List.map_cons, List.map_cons, map_eq_self_of_mem A g hA,
    map_eq_self_of_mem B g hB]

theorem decomp_id_facts (A B : List Row) (p e : Row)
    (hnd : ((A ++ p :: e :: B).map (fun r => r.id)).Nodup) :
    p.id ≠ e.id ∧ (∀ r ∈ A, r.id ≠ p.id ∧ r.id ≠ e.id)
      ∧ (∀ r ∈ B, r.id ≠ p.id ∧ r.id ≠ e.id) := by
  rw [List.map_append, List.map_cons, List.map_cons] at hnd
  rcases List.nodup_append.mp hnd with ⟨hA, hc, hdisj⟩
  rcases List.nodup_cons.mp hc with ⟨hp, hc2⟩
  rcases List.nodup_cons.mp hc2 with ⟨he, hB⟩
  refine ⟨?_, ?_, ?_⟩
  · intro heq
    refine hp ?_
    rw [heq]
    exact List.mem_cons_self _ _
  · intro r hr
    constructor
    · intro heq
      refine hdisj (List.mem_map_of_mem _ hr) ?_
      rw [heq]
      exact List.mem_cons_self _ _
    · intro heq
      refine hdisj (List.mem_map_of_mem _ hr) ?_
      rw [heq]
      exact List.mem_cons_of_mem _ (List.mem_cons_self _ _)
  · intro r hr
    constructor
    · intro heq
      exact hp (by
        rw [← heq]
        exact List.mem_cons_of_mem e.id (List.mem_map_of_mem _ hr))
    · intro heq
      exact he (by
        rw [← heq]
        exact List.mem_map_of_mem _ hr)

theorem findIndexById_decomp (A : List Row) (x : Row) (rest : List Row)
    (hA : ∀ r ∈ A, r.id ≠ x.id) :
    findIndexById (A ++ x :: rest) x.id = some A.length := by
  induction A with
  | nil => simp [findIndexById]
  | cons a as ih =>
    have hne : a.id ≠ x.id := hA a (List.mem_cons_self a as)
    have htail := ih (fun r hr => hA r (List.mem_cons_of_mem a hr))
    have hstep : findIndexById (a :: (as ++ x :: rest)) x.id
        = if a.id = x.id then some 0
          else (findIndexById (as ++ x :: rest) x.id).map (· + 1) := rfl
    rw [List.cons_append, hstep, if_neg hne, htail]
    rfl

theorem findIndexById_decomp2 (A : List Row) (p e : Row) (B : List Row)
    (hA : ∀ r ∈ A, r.id ≠ e.id) (hp : p.id ≠ e.id) :
    findIndexById (A ++ p :: e :: B) e.id = some (A.length + 1) := by
  have h := findIndexById_decomp (A ++ [p]) e B (by
    intro r hr
    rcases List.mem_append.mp hr with hr | hr
    · exact hA r hr
    · rcases List.mem_singleton.mp hr with rfl
      exact hp)
  rw [List.append_assoc] at h
  simpa using h

theorem updateItemOrder_rows (s : Store) (item : Row) (v : Nat) :
    (updateItemOrder s item v).rows = s.rows.map (updRowFn item.kind item.id v) := by
  cases hk : item.kind with
  | relation =>
    unfold updateItemOrder
    rw [hk]
    rfl
  | component =>
    unfold updateItemOrder
    rw [hk]
    rfl

theorem updRowFn_of_id_ne (k : EntryKind) (tid v : Nat) (r : Row) (h : r.id ≠ tid) :
    updRowFn k tid v r = r := by
  unfold updRowFn
  rw [if_neg]
  intro hc
  exact h hc.2

theorem updRowFn_self (k : EntryKind) (tid v : Nat) (r : Row)
    (hk : r.kind = k) (hid : r.id = tid) :
    updRowFn k tid v r = { r with orderIndex := v } := by
  unfold updRowFn
  rw [if_pos ⟨hk, hid⟩]

theorem content_ids_nodup (s : Store) (hid : (s.rows.map (fun r => r.id)).Nodup) :
    ((get_area_content_ordered s).map (fun r => r.id)).Nodup :=
  (((sortRows_perm s.rows).map (fun r => r.id)).nodup_iff).mpr hid

theorem content_ords_nodup (s : Store) (hord : (s.rows.map (fun r => r.orderIndex)).Nodup) :
    ((get_area_content_ordered s).map (fun r => r.orderIndex)).Nodup :=
  (((sortRows_perm s.rows).map (fun r => r.orderIndex)).nodup_iff).mpr hord

theorem content_sorted_lt (s : Store) (hord : (s.rows.map (fun r => r.orderIndex)).Nodup) :
    (get_area_content_ordered s).Sorted rowLT :=
  sorted_lt_of_sorted_le_nodup _ (sortRows_sorted s.rows) (content_ords_nodup s hord)

theorem findIndexById_of_get (L : List Row) (j : Nat) (hj : j < L.length)
    (hnd : (L.map (fun r => r.id)).Nodup) :
    findIndexById L (L.get ⟨j, hj⟩).id = some j := by
  induction L generalizing j with
  | nil => simp at hj
  | cons x xs ih =>
    rw [List.map_cons, List.nodup_cons] at hnd
    cases j with
    | zero => simp [findIndexById]
    | succ n =>
      have hn : n < xs.length := by
        simp at hj
        omega
      have hget : (x :: xs).get ⟨n + 1, hj⟩ = xs.get ⟨n, hn⟩ := rfl
      have hne : x.id ≠ ((x :: xs).get ⟨n + 1, hj⟩).id := by
        rw [hget]
        intro he
        exact hnd.1 (he ▸ List.mem_map_of_mem (fun r => r.id) (xs.get_mem _ _))
      rw [show findIndexById (x :: xs) ((x :: xs).get ⟨n + 1, hj⟩).id
          = if x.id = ((x :: xs).get ⟨n + 1, hj⟩).id then some 0
            else (findIndexById xs ((x :: xs).get ⟨n + 1, hj⟩).id).map (· + 1) from rfl]
      rw [if_neg hne, hget, ih n hn hnd.2]
      rfl

/-- C3: move up on the first element of the assembled content and move down
on the last element both return the store unchanged: the early-return branch
is taken and no store write is issued. -/
theorem move_boundary_noop (s : Store)
    (hid : (s.rows.map (fun r => r.id)).Nodup)
    (h0 : 0 < (get_area_content_ordered s).length) :
    on_move_up s ((get_area_content_ordered s).get ⟨0, h0⟩).id = s
    ∧ on_move_down s
        ((get_area_content_ordered s).get
          ⟨(get_area_content_ordered s).length - 1, by omega⟩).id = s := by
  have hnd := content_ids_nodup s hid
  constructor
  · unfold on_move_up
    rw [findIndexById_of_get _ 0 h0 hnd]
    rfl
  · unfold on_move_down
    rw [findIndexById_of_get _ ((get_area_content_ordered s).length - 1) (by omega) hnd]
    dsimp only
    rw [if_pos (le_refl _)]

theorem move_boundary_noop_witness :
    on_move_up S012 ((get_area_content_ordered S012).get ⟨0, by decide⟩).id = S012
    ∧ on_move_down S012
        ((get_area_content_ordered S012).get
          ⟨(get_area_content_ordered S012).length - 1, by decide⟩).id = S012 := by
  have h := move_boundary_noop S012 (by decide) (by decide)
  exact h

theorem map_congr_mem (l : List Row) (f g : Row → Row) (h : ∀ r ∈ l, f r = g r) :
    l.map f = l.map g := by
  induction l with
  | nil => rfl
  | cons x xs ih =>
    rw [List.map_cons, List.map_cons, h x (List.mem_cons_self x xs),
      ih (fun r hr => h r (List.mem_cons_of_mem x hr))]

theorem decomp_id_facts1 (A B : List Row) (x : Row)
    (hnd : ((A ++ x :: B).map (fun r => r.id)).Nodup) :
    (∀ r ∈ A, r.id ≠ x.id) ∧ (∀ r ∈ B, r.id ≠ x.id) := by
  rw [List.map_append, List.map_cons] at hnd
  rcases List.nodup_append.mp hnd with ⟨hA, hc, hdisj⟩
  rcases List.nodup_cons.mp hc with ⟨hx, hB⟩
  constructor
  · intro r hr heq
    refine hdisj (List.mem_map_of_mem _ hr) ?_
    rw [heq]
    exact List.mem_cons_self _ _
  · intro r hr heq
    refine hx ?_
    rw [← heq]
    exact List.mem_map_of_mem _ hr

theorem shiftStep_rows (fromOrder : Nat) (st : Store) (item : Row) :
    (if fromOrder ≤ item.orderIndex then updateItemOrder st item (item.orderIndex + 1)
      else st).rows
      = st.rows.map (fun r => shiftRowStep fromOrder r item) := by
  by_cases hc : fromOrder ≤ item.orderIndex
  · rw [if_pos hc, updateItemOrder_rows]
    have h1 : (fun r => shiftRowStep fromOrder r item)
        = updRowFn item.kind item.id (item.orderIndex + 1) := by
      funext r
      unfold shiftRowStep
      rw [if_pos hc]
    rw [h1]
  · rw [if_neg hc]
    have h1 : (fun r => shiftRowStep fromOrder r item) = fun r => r := by
      funext r
      unfold shiftRowStep
      rw [if_neg hc]
    rw [h1, map_eq_self_of_mem st.rows _ (fun r _ => rfl)]

theorem foldl_shift_rows (fromOrder : Nat) (items : List Row) (st : Store) :
    (items.foldl
        (fun st item =>
          if fromOrder ≤ item.orderIndex then updateItemOrder st item (item.orderIndex + 1)
          else st)
        st).rows
      = st.rows.map (fun r => items.foldl (shiftRowStep fromOrder) r) := by
  induction items generalizing st with
  | nil =>
    rw [List.foldl_nil,
      map_eq_self_of_mem st.rows (fun r => List.foldl (shiftRowStep fromOrder) r [])
        (fun r _ => rfl)]
  | cons it its ih =>
    rw [List.foldl_cons, ih, shiftStep_rows, List.map_map]
    rfl

theorem foldl_shiftRowStep_of_no_id (fromOrder : Nat) (items : List Row) (r : Row)
    (h : ∀ it ∈ items, it.id ≠ r.id) :
    items.foldl (shiftRowStep fromOrder) r = r := by
  induction items with
  | nil => rfl
  | cons it its ih =>
    rw [List.foldl_cons]
    have h1 : shiftRowStep fromOrder r it = r := by
      unfold shiftRowStep
      split
      · exact updRowFn_of_id_ne _ _ _ _
          (fun he => h it (List.mem_cons_self _ _) he.symm)
      · rfl
    rw [h1]
    exact ih (fun it2 hit => h it2 (List.mem_cons_of_mem _ hit))

theorem foldl_shiftRowStep_decomp (fromOrder : Nat) (A B : List Row) (r : Row)
    (hA : ∀ it ∈ A, it.id ≠ r.id) (hB : ∀ it ∈ B, it.id ≠ r.id) :
    (A ++ r :: B).foldl (shiftRowStep fromOrder) r
      = if fromOrder ≤ r.orderIndex then { r with orderIndex := r.orderIndex + 1 } else r := by
  rw [List.foldl_append, foldl_shiftRowStep_of_no_id fromOrder A r hA, List.foldl_cons]
  by_cases hc : fromOrder ≤ r.orderIndex
  · rw [if_pos hc]
    have h1 : shiftRowStep fromOrder r r = { r with orderIndex := r.orderIndex + 1 } := by
      unfold shiftRowStep
      rw [if_pos hc]
      exact updRowFn_self _ _ _ _ rfl rfl
    rw [h1]
    exact foldl_shiftRowStep_of_no_id fromOrder B _ (fun it hit => hB it hit)
  · rw [if_neg hc]
    have h1 : shiftRowStep fromOrder r r = r := by
      unfold shiftRowStep
      rw [if_neg hc]
    rw [h1]
    exact foldl_shiftRowStep_of_no_id fromOrder B r hB

theorem shift_rows (s : Store) (fromOrder : Nat)
    (hid : (s.rows.map (fun r => r.id)).Nodup) :
    (shift_order_indices_down s fromOrder).rows
      = s.rows.map (fun r =>
          if fromOrder ≤ r.orderIndex then { r with orderIndex := r.orderIndex + 1 } else r) := by
  unfold shift_order_indices_down
  rw [foldl_shift_rows]
  apply map_congr_mem
  intro r hr
  have hmem : r ∈ get_area_content_ordered s := (sortRows_perm s.rows).mem_iff.mpr hr
  have hnd := content_ids_nodup s hid
  rcases List.append_of_mem hmem with ⟨A, B, hAB⟩
  rw [hAB] at hnd
  rcases decomp_id_facts1 A B r hnd with ⟨hA, hB⟩
  rw [hAB]
  exact foldl_shiftRowStep_decomp fromOrder A B r hA hB

/-- C1: with an anchor at order_index k, the insert-below path first
increments the order_index of every existing row, relation or component
alike, whose order_index is at least k + 1, and then appends the new
relation row at order_index k + 1. -/
theorem insert_below_shifts_then_inserts (s : Store) (k newId : Nat) (et : String)
    (hid : (s.rows.map (fun r => r.id)).Nodup)
    (hval : validate_entity_type et = true) :
    (on_entity_selected s et newId k).2.rows
      = s.rows.map (fun r =>
          if k + 1 ≤ r.orderIndex then { r with orderIndex := r.orderIndex + 1 } else r)
        ++ [⟨newId, EntryKind.relation, k + 1⟩] := by
  unfold on_entity_selected add_entity_to_area
  rw [hval]
  rw [if_neg (by simp)]
  show (add_area_relation (shift_order_indices_down s (k + 1)) newId (k + 1)).rows = _
  unfold add_area_relation
  show (shift_order_indices_down s (k + 1)).rows ++ [⟨newId, EntryKind.relation, k + 1⟩] = _
  rw [shift_rows s (k + 1) hid]

theorem insert_below_witness :
    (on_entity_selected S012 "tag" 13 1).2.rows
      = [⟨10, EntryKind.relation, 0⟩, ⟨11, EntryKind.relation, 1⟩,
         ⟨12, EntryKind.relation, 3⟩, ⟨13, EntryKind.relation, 2⟩] := by
  rw [insert_below_shifts_then_inserts S012 1 13 "tag" (by decide) (by decide)]
  rfl

/-- C2: on an element that is neither first nor last in the assembled
content, move up followed by move down restores the store exactly, hence the
original assembled order; the hypotheses are unique row ids and the ordering
invariant of spec section 3 (pairwise distinct order_index values). -/
theorem move_up_down_roundtrip (s : Store) (j : Nat)
    (hid : (s.rows.map (fun r => r.id)).Nodup)
    (hord : (s.rows.map (fun r => r.orderIndex)).Nodup)
    (hj0 : 0 < j) (hjn : j + 1 < (get_area_content_ordered s).length)
    (hj : j < (get_area_content_ordered s).length) :
    on_move_down
        (on_move_up s ((get_area_content_ordered s).get ⟨j, hj⟩).id)
        ((get_area_content_ordered s).get ⟨j, hj⟩).id = s
    ∧ get_area_content_ordered
        (on_move_down
          (on_move_up s ((get_area_content_ordered s).get ⟨j, hj⟩).id)
          ((get_area_content_ordered s).get ⟨j, hj⟩).id)
      = get_area_content_ordered s := by
  set L := get_area_content_ordered s with hL
  have hndid : (L.map (fun r => r.id)).Nodup := content_ids_nodup s hid
  have hndord : (L.map (fun r => r.orderIndex)).Nodup := content_ords_nodup s hord
  have hsorted : L.Sorted rowLT := content_sorted_lt s hord
  have hj1 : j - 1 < L.length := by omega
  set e := L.get ⟨j, hj⟩ with he
  set p := L.get ⟨j - 1, hj1⟩ with hp
  set A := L.take (j - 1) with hA
  set B := L.drop (j + 1) with hB
  have hdecomp : L = A ++ p :: e :: B := by
    have h1 : A ++ L.drop (j - 1) = L := List.take_append_drop (j - 1) L
    have h2 : L.drop (j - 1) = p :: L.drop (j - 1 + 1) := by
      rw [List.drop_eq_getElem_cons hj1]
      rfl
    have h3 : L.drop j = e :: L.drop (j + 1) := by
      rw [List.drop_eq_getElem_cons hj]
      rfl
    have hjj : j - 1 + 1 = j := by omega
    rw [hjj] at h2
    rw [← h1, h2, h3]
  have hAlen : A.length = j - 1 := by
    rw [hA, List.length_take]
    omega
  have hdecompnd : ((A ++ p :: e :: B).map (fun r => r.id)).Nodup := by
    rw [← hdecomp]
    exact hndid
  rcases decomp_id_facts A B p e hdecompnd with ⟨hpe, hAids, hBids⟩
  have hPW : (A ++ p :: e :: B).Pairwise rowLT := by
    rw [← hdecomp]
    exact hsorted
  rcases List.pairwise_append.mp hPW with ⟨hPA, hPM, hcross⟩
  rcases List.pairwise_cons.mp hPM with ⟨hpall, hPM2⟩
  rcases List.pairwise_cons.mp hPM2 with ⟨heall, hPB⟩
  have hpelt : p.orderIndex < e.orderIndex := hpall e (List.mem_cons_self _ _)
  have hfind1 : findIndexById L e.id = some j := by
    rw [hdecomp, findIndexById_decomp2 A p e B (fun r hr => (hAids r hr).2) hpe, hAlen]
    congr 1
    omega
  have hgetj : L[j]? = some e := by
    rw [List.getElem?_eq_getElem hj]
    rfl
  have hgetj1 : L[j - 1]? = some p := by
    rw [List.getElem?_eq_getElem hj1]
    rfl
  have hmu : on_move_up s e.id
      = updateItemOrder (updateItemOrder s e p.orderIndex) p e.orderIndex := by
    unfold on_move_up
    rw [← hL, hfind1]
    dsimp only
    rw [if_neg (by omega : ¬ (j = 0)), hgetj, hgetj1]
  have hrows1 : (updateItemOrder (updateItemOrder s e p.orderIndex) p e.orderIndex).rows
      = s.rows.map
          (fun r => updRowFn p.kind p.id e.orderIndex (updRowFn e.kind e.id p.orderIndex r)) := by
    rw [updateItemOrder_rows, updateItemOrder_rows, List.map_map]
    rfl
  have hpair_e : updRowFn p.kind p.id e.orderIndex (updRowFn e.kind e.id p.orderIndex e)
      = swapRow e p := by
    simp [updRowFn, swapRow, Ne.symm hpe]
  have hpair_p : updRowFn p.kind p.id e.orderIndex (updRowFn e.kind e.id p.orderIndex p)
      = swapRow p e := by
    simp [updRowFn, swapRow, hpe]
  have hg1A : ∀ r ∈ A, updRowFn p.kind p.id e.orderIndex (updRowFn e.kind e.id p.orderIndex r)
      = r := by
    intro r hr
    rcases hAids r hr with ⟨hrp, hre⟩
    rw [updRowFn_of_id_ne e.kind e.id p.orderIndex r hre,
      updRowFn_of_id_ne p.kind p.id e.orderIndex r hrp]
  have hg1B : ∀ r ∈ B, updRowFn p.kind p.id e.orderIndex (updRowFn e.kind e.id p.orderIndex r)
      = r := by
    intro r hr
    rcases hBids r hr with ⟨hrp, hre⟩
    rw [updRowFn_of_id_ne e.kind e.id p.orderIndex r hre,
      updRowFn_of_id_ne p.kind p.id e.orderIndex r hrp]
  have hmapg1 : L.map
        (fun r => updRowFn p.kind p.id e.orderIndex (updRowFn e.kind e.id p.orderIndex r))
      = A ++ swapRow p e :: swapRow e p :: B := by
    rw [hdecomp, map_decomp A B p e _ hg1A hg1B]
    show A ++ updRowFn p.kind p.id e.orderIndex (updRowFn e.kind e.id p.orderIndex p)
        :: updRowFn p.kind p.id e.orderIndex (updRowFn e.kind e.id p.orderIndex e) :: B
      = A ++ swapRow p e :: swapRow e p :: B
    rw [hpair_p, hpair_e]
  have hpermswap : List.Perm (A ++ swapRow e p :: swapRow p e :: B)
      (updateItemOrder (updateItemOrder s e p.orderIndex) p e.orderIndex).rows := by
    refine List.Perm.trans
      (List.Perm.append_left A (List.Perm.swap (swapRow p e) (swapRow e p) B)) ?_
    rw [hrows1, ← hmapg1]
    exact (sortRows_perm s.rows).map _
  have hordswap : ((A ++ swapRow e p :: swapRow p e :: B).map (fun r => r.orderIndex))
      = L.map (fun r => r.orderIndex) := by
    rw [hdecomp]
    simp only [List.map_append, List.map_cons]
    rfl
  have hPWswap : (A ++ swapRow e p :: swapRow p e :: B).Pairwise rowLT := by
    apply List.pairwise_append.mpr
    refine ⟨hPA, ?_, ?_⟩
    · apply List.pairwise_cons.mpr
      constructor
      · intro y hy
        rcases List.mem_cons.mp hy with hy | hy
        · subst hy
          exact hpelt
        · exact hpall y (List.mem_cons_of_mem e hy)
      · apply List.pairwise_cons.mpr
        exact ⟨fun y hy => heall y hy, hPB⟩
    · intro a ha y hy
      rcases List.mem_cons.mp hy with hy | hy
      · subst hy
        exact hcross a ha p (List.mem_cons_self _ _)
      · rcases List.mem_cons.mp hy with hy | hy
        · subst hy
          exact hcross a ha e (List.mem_cons_of_mem _ (List.mem_cons_self _ _))
        · exact hcross a ha y (List.mem_cons_of_mem _ (List.mem_cons_of_mem _ hy))
  have hcontent1 : get_area_content_ordered
        (updateItemOrder (updateItemOrder s e p.orderIndex) p e.orderIndex)
      = A ++ swapRow e p :: swapRow p e :: B := by
    apply sorted_eq_of_perm
    · exact (sortRows_perm _).trans hpermswap.symm
    · refine sorted_lt_of_sorted_le_nodup _ (sortRows_sorted _) ?_
      have h1 := ((sortRows_perm
        (updateItemOrder (updateItemOrder s e p.orderIndex) p e.orderIndex).rows).trans
          hpermswap.symm).map (fun r => r.orderIndex)
      rw [hordswap] at h1
      exact h1.nodup_iff.mpr hndord
    · exact hPWswap
  have hfind2 : findIndexById (A ++ swapRow e p :: swapRow p e :: B) e.id
      = some A.length :=
    findIndexById_decomp A (swapRow e p) (swapRow p e :: B) (fun r hr => (hAids r hr).2)
  have hbound : ¬ ((A ++ swapRow e p :: swapRow p e :: B).length - 1 ≤ A.length) := by
    simp only [List.length_append, List.length_cons]
    omega
  have hget2a : (A ++ swapRow e p :: swapRow p e :: B)[A.length]? = some (swapRow e p) := by
    rw [List.getElem?_append_right (le_refl A.length)]
    simp
  have hget2b : (A ++ swapRow e p :: swapRow p e :: B)[A.length + 1]?
      = some (swapRow p e) := by
    rw [List.getElem?_append_right (by omega : A.length ≤ A.length + 1)]
    have h1 : A.length + 1 - A.length = 1 := by omega
    rw [h1, List.getElem?_cons_succ, List.getElem?_cons_zero]
  have hmd : on_move_down
        (updateItemOrder (updateItemOrder s e p.orderIndex) p e.orderIndex) e.id
      = updateItemOrder
          (updateItemOrder
            (updateItemOrder (updateItemOrder s e p.orderIndex) p e.orderIndex)
            (swapRow e p) e.orderIndex)
          (swapRow p e) p.orderIndex := by
    unfold on_move_down
    rw [hcontent1, hfind2]
    dsimp only
    rw [if_neg hbound, hget2a, hget2b]
    rfl
  have hchain_e : updRowFn p.kind p.id p.orderIndex (updRowFn e.kind e.id e.orderIndex
      (updRowFn p.kind p.id e.orderIndex (updRowFn e.kind e.id p.orderIndex e))) = e := by
    simp [updRowFn, Ne.symm hpe]
  have hchain_p : updRowFn p.kind p.id p.orderIndex (updRowFn e.kind e.id e.orderIndex
      (updRowFn p.kind p.id e.orderIndex (updRowFn e.kind e.id p.orderIndex p))) = p := by
    simp [updRowFn, hpe]
  have hchain_o : ∀ r : Row, r.id ≠ e.id → r.id ≠ p.id →
      updRowFn p.kind p.id p.orderIndex (updRowFn e.kind e.id e.orderIndex
        (updRowFn p.kind p.id e.orderIndex (updRowFn e.kind e.id p.orderIndex r))) = r := by
    intro r hre hrp
    simp [updRowFn, hre, hrp]
  have hemem : e ∈ s.rows := by
    refine (sortRows_perm s.rows).mem_iff.mp ?_
    rw [he]
    exact List.get_mem L j hj
  have hpmem : p ∈ s.rows := by
    refine (sortRows_perm s.rows).mem_iff.mp ?_
    rw [hp]
    exact List.get_mem L (j - 1) hj1
  have hfinal : (on_move_down
      (updateItemOrder (updateItemOrder s e p.orderIndex) p e.orderIndex) e.id).rows
      = s.rows := by
    rw [hmd, updateItemOrder_rows, updateItemOrder_rows, hrows1, List.map_map, List.map_map]
    apply map_eq_self_of_mem
    intro r hr
    show updRowFn p.kind p.id p.orderIndex (updRowFn e.kind e.id e.orderIndex
      (updRowFn p.kind p.id e.orderIndex (updRowFn e.kind e.id p.orderIndex r))) = r
    by_cases hre : r.id = e.id
    · have hr_eq : r = e := List.inj_on_of_nodup_map hid hr hemem hre
      rw [hr_eq, hchain_e]
    · by_cases hrp : r.id = p.id
      · have hr_eq : r = p := List.inj_on_of_nodup_map hid hr hpmem hrp
        rw [hr_eq, hchain_p]
      · exact hchain_o r hre hrp
  have hstore : on_move_down (on_move_up s e.id) e.id = s := by
    rw [hmu]
    calc on_move_down (updateItemOrder (updateItemOrder s e p.orderIndex) p e.orderIndex) e.id
        = ⟨(on_move_down
            (updateItemOrder (updateItemOrder s e p.orderIndex) p e.orderIndex) e.id).rows⟩ :=
          rfl
      _ = ⟨s.rows⟩ := by rw [hfinal]
      _ = s := rfl
  exact ⟨hstore, by rw [hstore]⟩

theorem move_roundtrip_witness :
    on_move_down
        (on_move_up S012 ((get_area_content_ordered S012).get ⟨1, by decide⟩).id)
        ((get_area_content_ordered S012).get ⟨1, by decide⟩).id = S012 :=
  (move_up_down_roundtrip S012 1 (by decide) (by decide) (by decide) (by decide)
    (by decide)).1

theorem foldMaxOrder_ge_init (init : Int) (l : List Row) : init ≤ foldMaxOrder init l := by
  induction l generalizing init with
  | nil => exact le_refl _
  | cons x xs ih =>
    unfold foldMaxOrder at ih ⊢
    simp only [List.foldl_cons]
    refine le_trans ?_ (ih _)
    split
    · exact le_of_lt (by assumption)
    · exact le_refl _

theorem foldMaxOrder_ge_mem (init : Int) (l : List Row) (r : Row) (hr : r ∈ l) :
    (r.orderIndex : Int) ≤ foldMaxOrder init l := by
  induction l generalizing init with
  | nil => cases hr
  | cons x xs ih =>
    rcases List.mem_cons.mp hr with h | h
    · subst h
      unfold foldMaxOrder
      simp only [List.foldl_cons]
      refine le_trans ?_ (foldMaxOrder_ge_init _ _)
      split
      · exact le_refl _
      · omega
    · exact ih _ h

theorem foldMaxOrder_eq_init_or_mem (init : Int) (l : List Row) :
    foldMaxOrder init l = init ∨ ∃ r ∈ l, foldMaxOrder init l = (r.orderIndex : Int) := by
  induction l generalizing init with
  | nil => exact Or.inl rfl
  | cons x xs ih =>
    have hstep : foldMaxOrder init (x :: xs)
        = foldMaxOrder (if (x.orderIndex : Int) > init then (x.orderIndex : Int) else init) xs := by
      unfold foldMaxOrder
      simp only [List.foldl_cons]
    rcases ih (if (x.orderIndex : Int) > init then (x.orderIndex : Int) else init) with h | h
    · rw [hstep, h]
      split
      · exact Or.inr ⟨x, List.mem_cons_self x xs, rfl⟩
      · exact Or.inl rfl
    · rcases h with ⟨r, hrmem, hr⟩
      exact Or.inr ⟨r, List.mem_cons_of_mem x hrmem, by rw [hstep, hr]⟩

theorem filter_kind_partition (l : List Row) :
    (l.filter (fun r => r.kind = EntryKind.relation)).length
      + (l.filter (fun r => r.kind = EntryKind.component)).length = l.length := by
  induction l with
  | nil => rfl
  | cons x xs ih =>
    cases hk : x.kind <;> simp [List.filter_cons, hk] <;> omega

theorem mem_rows_of_kind (l : List Row) (r : Row) (hr : r ∈ l) :
    r ∈ l.filter (fun x => x.kind = EntryKind.relation)
      ∨ r ∈ l.filter (fun x => x.kind = EntryKind.component) := by
  cases hk : r.kind with
  | relation => exact Or.inl (List.mem_filter.mpr ⟨hr, by simp [hk]⟩)
  | component => exact Or.inr (List.mem_filter.mpr ⟨hr, by simp [hk]⟩)

/-- C4 (amended): appending a Relation without a position uses one plus the
maximum order_index over all existing relations and components (0 when the
container is empty), while appending a Component without a position uses the
count of existing rows, not the maximum plus one. -/
theorem append_order_index_characterization (s : Store) :
    (∀ r ∈ s.rows, r.orderIndex < relationAppendOrderIndex s)
    ∧ (s.rows ≠ [] → ∃ r ∈ s.rows, relationAppendOrderIndex s = r.orderIndex + 1)
    ∧ (s.rows = [] → relationAppendOrderIndex s = 0)
    ∧ componentAppendOrderIndex s = s.rows.length
    ∧ (∀ (et : String) (newId : Nat), validate_entity_type et = true →
        (add_entity_to_area s et newId none).2.rows
          = s.rows ++ [⟨newId, EntryKind.relation, relationAppendOrderIndex s⟩])
    ∧ (∀ newId : Nat, (add_component_to_area s newId none).2.rows
        = s.rows ++ [⟨newId, EntryKind.component, componentAppendOrderIndex s⟩]) := by
  have hub : ∀ r ∈ s.rows,
      (r.orderIndex : Int) ≤ foldMaxOrder
        (foldMaxOrder (-1) (s.rows.filter (fun x => x.kind = EntryKind.relation)))
        (s.rows.filter (fun x => x.kind = EntryKind.component)) := by
    intro r hr
    rcases mem_rows_of_kind s.rows r hr with h | h
    · exact le_trans (foldMaxOrder_ge_mem _ _ _ h) (foldMaxOrder_ge_init _ _)
    · exact foldMaxOrder_ge_mem _ _ _ h
  refine ⟨?_, ?_, ?_, ?_, ?_, ?_⟩
  · intro r hr
    have := hub r hr
    unfold relationAppendOrderIndex
    omega
  · intro hne
    rcases List.exists_mem_of_ne_nil s.rows hne with ⟨r0, hr0⟩
    have h0 : (0 : Int) ≤ foldMaxOrder
        (foldMaxOrder (-1) (s.rows.filter (fun x => x.kind = EntryKind.relation)))
        (s.rows.filter (fun x => x.kind = EntryKind.component)) := by
      have := hub r0 hr0
      omega
    rcases foldMaxOrder_eq_init_or_mem
        (foldMaxOrder (-1) (s.rows.filter (fun x => x.kind = EntryKind.relation)))
        (s.rows.filter (fun x => x.kind = EntryKind.component)) with h | h
    · rcases foldMaxOrder_eq_init_or_mem (-1)
          (s.rows.filter (fun x => x.kind = EntryKind.relation)) with h2 | h2
      · omega
      · rcases h2 with ⟨r, hrmem, hr⟩
        refine ⟨r, (List.mem_filter.mp hrmem).1, ?_⟩
        unfold relationAppendOrderIndex
        rw [h, hr]
        omega
    · rcases h with ⟨r, hrmem, hr⟩
      refine ⟨r, (List.mem_filter.mp hrmem).1, ?_⟩
      unfold relationAppendOrderIndex
      rw [hr]
      omega
  · intro hnil
    unfold relationAppendOrderIndex
    rw [hnil]
    rfl
  · unfold componentAppendOrderIndex
    exact filter_kind_partition s.rows
  · intro et newId hval
    unfold add_entity_to_area
    rw [hval]
    rfl
  · intro newId
    rfl

theorem append_order_index_witness :
    ∃ r ∈ (⟨[⟨1, EntryKind.relation, 5⟩]⟩ : Store).rows,
      relationAppendOrderIndex ⟨[⟨1, EntryKind.relation, 5⟩]⟩ = r.orderIndex + 1 :=
  (append_order_index_characterization ⟨[⟨1, EntryKind.relation, 5⟩]⟩).2.1 (by decide)

/-- C4 counterexample: in a container whose only row is a relation at
order_index 5, adding a Component without a position appends it at
order_index 1 (the row count), not at the maximum plus one, which is 6. -/
theorem component_append_order_cex :
    (add_component_to_area ⟨[⟨1, EntryKind.relation, 5⟩]⟩ 2 none).2.rows
        = [⟨1, EntryKind.relation, 5⟩, ⟨2, EntryKind.component, 1⟩]
    ∧ componentAppendOrderIndex ⟨[⟨1, EntryKind.relation, 5⟩]⟩ = 1
    ∧ relationAppendOrderIndex ⟨[⟨1, EntryKind.relation, 5⟩]⟩ = 6
    ∧ (1 : Nat) ≠ 5 + 1 := by
  refine ⟨rfl, rfl, ?_, by decide⟩
  rfl

/-- With a nonempty selection, the AND predicate entails the OR predicate. -/
theorem tagMatch_all_imp_any (act tags : List Nat) (hne : act ≠ [])
    (h : tagMatch act tags true = true) : tagMatch act tags false = true := by
  cases act with
  | nil => exact absurd rfl hne
  | cons a as =>
    simp only [tagMatch, if_pos, if_neg, Bool.false_eq_true, ite_true, ite_false] at h ⊢
    simp only [List.all_cons, Bool.and_eq_true] at h
    simp only [List.any_cons, Bool.or_eq_true]
    exact Or.inl h.1

/-- C6: for every content list, selected tag set and tag-set assignment, every
entry kept by the tag filter under AND semantics (match_all true) is also kept
under OR semantics (match_all false). -/
theorem filter_or_superset_and (getRelTags getCompTags : Nat → List Nat)
    (activeTagFilters : List Nat) (content : List Row) (item : Row)
    (h : item ∈ filter_content_by_tags_area getRelTags getCompTags activeTagFilters true content) :
    item ∈ filter_content_by_tags_area getRelTags getCompTags activeTagFilters false content := by
  unfold filter_content_by_tags_area at h ⊢
  by_cases he : activeTagFilters.isEmpty
  · rw [if_pos he] at h
    rw [if_pos he]
    exact h
  · rw [if_neg he] at h
    rw [if_neg he]
    rw [List.mem_filter] at h ⊢
    refine ⟨h.1, ?_⟩
    have hne : activeTagFilters ≠ [] := by
      intro hnil
      rw [hnil] at he
      exact he rfl
    exact tagMatch_all_imp_any _ _ hne h.2

theorem filter_or_superset_and_witness :
    (⟨5, EntryKind.relation, 0⟩ : Row)
      ∈ filter_content_by_tags_area (fun _ => [1, 2]) (fun _ => []) [1] false
          [⟨5, EntryKind.relation, 0⟩] :=
  filter_or_superset_and (fun _ => [1, 2]) (fun _ => []) [1]
    [⟨5, EntryKind.relation, 0⟩] ⟨5, EntryKind.relation, 0⟩ (by decide)

/-- C7: with an empty selected-tag set both filter variants return the input
content unchanged, for either value of match_all. -/
theorem filter_empty_selection_identity (getRelTags getCompTags : Nat → List Nat)
    (matchAll : Bool) (content : List Row) :
    filter_content_by_tags_area getRelTags getCompTags [] matchAll content = content
    ∧ filter_content_by_tags_project getRelTags [] matchAll content = content :=
  ⟨rfl, rfl⟩

/-- C5: the Area-variant and the Project-variant tag filters are not
equivalent: on a single Component with no matching tags the Area variant
drops it while the Project variant keeps it; on content consisting of
Relations only, the two variants agree for every tag assignment, selection
and match mode. -/
theorem filter_variants_divergence :
    (filter_content_by_tags_area (fun _ => []) (fun _ => []) [1] false
        [⟨0, EntryKind.component, 0⟩] = []
      ∧ filter_content_by_tags_project (fun _ => []) [1] false
          [⟨0, EntryKind.component, 0⟩] = [⟨0, EntryKind.component, 0⟩])
    ∧ ∀ (getRelTags getCompTags : Nat → List Nat) (act : List Nat) (ma : Bool)
        (content : List Row),
        (∀ item ∈ content, item.kind = EntryKind.relation) →
        filter_content_by_tags_area getRelTags getCompTags act ma content
          = filter_content_by_tags_project getRelTags act ma content := by
  constructor
  · exact ⟨by decide, by decide⟩
  · intro gR gC act ma content hrel
    unfold filter_content_by_tags_area filter_content_by_tags_project
    by_cases he : act.isEmpty
    · rw [if_pos he, if_pos he]
    · rw [if_neg he, if_neg he]
      apply List.filter_congr
      intro item hmem
      have hk := hrel item hmem
      simp [itemTagIds, hk]

theorem filter_variants_divergence_witness :
    filter_content_by_tags_area (fun _ => [3]) (fun _ => []) [3] true
        [⟨1, EntryKind.relation, 0⟩]
      = filter_content_by_tags_project (fun _ => [3]) [3] true
          [⟨1, EntryKind.relation, 0⟩] :=
  filter_variants_divergence.2 (fun _ => [3]) (fun _ => []) [3] true
    [⟨1, EntryKind.relation, 0⟩] (by decide)

/-- C9: AreaRelation construction succeeds exactly when the entity_type is
one of the six recognized kinds; on any other value the post-init validation
fails and no relation value is produced. -/
theorem relation_entity_type_validation (relationId area_id entity_id order_index : Nat)
    (entity_type description : String) :
    (∃ r, mkAreaRelation relationId area_id entity_type entity_id description order_index
        = Except.ok r)
      ↔ entity_type ∈ ["tag", "process", "list", "table", "category", "item"] := by
  unfold mkAreaRelation
  by_cases h : validate_entity_type entity_type = true
  · rw [if_pos h]
    have hm : entity_type ∈ VALID_ENTITY_TYPES := by
      have hh := h
      unfold validate_entity_type at hh
      simpa [List.contains, List.elem_iff] using hh
    constructor
    · intro _
      exact hm
    · intro _
      exact ⟨_, rfl⟩
  · rw [if_neg h]
    constructor
    · intro ⟨r, hr⟩
      exact absurd hr (by simp)
    · intro hm
      refine absurd ?_ h
      unfold validate_entity_type VALID_ENTITY_TYPES
      simpa [List.contains, List.elem_iff] using hm

/-- C8: create_tag fails, creating nothing, on an empty or whitespace-only
name, a name longer than 50 characters, a name with a character outside the
letters / digits / whitespace / hyphen / underscore class, or a color
rejected by the anchored hex pattern; and the specific name valid_name-1 and
the colors with three and six hex digits pass validation. -/
theorem create_tag_validation :
    (∀ (ops : TagStoreOps) (name color description : String),
        (name.toList.all isPySpace = true ∨ 50 < name.length
          ∨ name.toList.any (fun c => !(isNameChar c)) = true
          ∨ validate_color color = false) →
        create_tag ops name color description = none)
    ∧ validate_tag_name "valid_name-1" = true
    ∧ validate_color "#fff" = true ∧ validate_color "#ffffff" = true := by
  refine ⟨?_, by decide, by decide, by decide⟩
  intro ops name color descr h
  rcases h with h | h | h | h
  · have hv : validate_tag_name name = false := by
      unfold validate_tag_name
      rw [if_pos h]
    unfold create_tag
    rw [if_pos hv]
  · have hv : validate_tag_name name = false := by
      unfold validate_tag_name
      by_cases hA : name.toList.all isPySpace = true
      · rw [if_pos hA]
      · rw [if_neg hA, if_pos h]
    unfold create_tag
    rw [if_pos hv]
  · have hall : name.toList.all isNameChar = false := by
      rcases List.any_eq_true.mp h with ⟨c, hc, hbad⟩
      rw [Bool.not_eq_true'] at hbad
      cases hallc : name.toList.all isNameChar with
      | false => rfl
      | true =>
        have := List.all_eq_true.mp hallc c hc
        rw [this] at hbad
        cases hbad
    have hv : validate_tag_name name = false := by
      unfold validate_tag_name
      by_cases hA : name.toList.all isPySpace = true
      · rw [if_pos hA]
      · rw [if_neg hA]
        by_cases hB : 50 < name.length
        · rw [if_pos hB]
        · rw [if_neg hB, hall, Bool.and_false]
    unfold create_tag
    rw [if_pos hv]
  · unfold create_tag
    by_cases hN : validate_tag_name name = false
    · rw [if_pos hN]
    · rw [if_neg hN, if_pos h]

theorem create_tag_validation_witness :
    create_tag opsStub "" "#fff" "" = none
    ∧ create_tag opsStub
        "aaaaaaaaaaaaaaaaaaaaaaaaaaaaaaaaaaaaaaaaaaaaaaaaaaa" "#fff" "" = none
    ∧ create_tag opsStub "bad!name" "#fff" "" = none :=
  ⟨create_tag_validation.1 opsStub _ _ _ (Or.inl (by decide)),
   create_tag_validation.1 opsStub _ _ _ (Or.inr (Or.inl (by decide))),
   create_tag_validation.1 opsStub _ _ _ (Or.inr (Or.inr (Or.inl (by decide))))⟩

/-- C10: with the tag cache still in its never-loaded initial state, a
validated update_tag whose store write succeeds still returns False, and the
store state it returns is the updated one: the write persists although
failure is reported. -/
theorem update_tag_cache_none_false (db : List AreaElementTag) (st : TagMgrState)
    (tid : Nat) (name color description : Option String)
    (hcache : st.tagsCache = none)
    (hname : ∀ nm, name = some nm → validate_tag_name nm = true)
    (hcolor : ∀ cl, color = some cl → validate_color cl = true)
    (hexists : db.any (fun r => r.id = tid) = true) :
    update_tag db st tid name color description
      = (false, (db_update_area_element_tag db tid name color description).2, st) := by
  have hupd : (db_update_area_element_tag db tid name color description).1 = true := by
    unfold db_update_area_element_tag
    rw [if_pos hexists]
  cases name with
  | none =>
    cases color with
    | none =>
      simp only [update_tag, Bool.false_eq_true, if_false, hupd, if_true, hcache]
    | some cl =>
      have hc := hcolor cl rfl
      simp only [update_tag, hc, Bool.not_true, Bool.false_eq_true, if_false, hupd,
        if_true, hcache]
  | some nm =>
    have hn := hname nm rfl
    cases color with
    | none =>
      simp only [update_tag, hn, Bool.not_true, Bool.false_eq_true, if_false, hupd,
        if_true, hcache]
    | some cl =>
      have hc := hcolor cl rfl
      simp only [update_tag, hn, hc, Bool.not_true, Bool.false_eq_true, if_false, hupd,
        if_true, hcache]

theorem update_tag_cache_none_false_witness :
    update_tag dbW ⟨none⟩ 1 (some "NewName") none none
      = (false, [⟨1, "NewName", "#fff", ""⟩], ⟨none⟩)
    ∧ [(⟨1, "NewName", "#fff", ""⟩ : AreaElementTag)] ≠ dbW := by
  refine ⟨?_, by decide⟩
  have h := update_tag_cache_none_false dbW ⟨none⟩ 1 (some "NewName") none none rfl
    (fun nm hnm => by cases hnm; decide)
    (fun cl hcl => by cases hcl)
    (by decide)
  rw [h]
  decide

end WidgetSidebar
